import Mathlib

/-!
Shallow embedding of the elkhound workflow engine (`elkhound/engine.py`,
`elkhound/file.py`) and proofs about its registry, dependency-closure,
versioned-file-resolution and orchestration behaviour.

Conventions of the embedding:
* Python `dict`s become association lists (`List (key × value)`) consulted
  with `List.lookup`; registration guards keep keys unique, so lookup
  agrees with dict semantics.
* Python exceptions become either `Except` results (for operations whose
  callers only see the raised error) or an `Option EngineError × State`
  pair (for operations on a mutable object, where the object's state after
  the exception is observable — used for the registration methods and for
  `Engine.run`, whose `context` argument is mutated in place).
* A `Task` instance's identity (Python object identity, used by the
  `completed_tasks` set) is modelled by an explicit `id : Nat` field.
* The `while queue:` loop of `_add_dependencies` is modelled with an
  explicit fuel parameter; `depsFuel` is an upper bound on the number of
  iterations (each code is pushed at most once, plus the initial queue).
* Spec names and extensions are treated as literal text when matching the
  `d<code>_<name>_v<version>.<ext>` pattern of `_to_data_file` (the Python
  code interpolates them into a regular expression; for metacharacter-free
  names, which is the documented use, the two coincide).  The unanchored
  tail and the single-character wildcard of the regex (`.` before the
  extension, no trailing `$`) are modelled faithfully, including the
  backtracking choice of the greedy `(\d+)` group.
-/

namespace Elkhound

/-- Context dictionary threaded through task executions
(`context: Dict[str, Any]` in the source, modelled with `Nat` values). -/
abbrev Ctx := List (String × Nat)

/-- One constructor per distinct raise site of the engine
(plus `outOfFuel` for exhaustion of the loop fuel, which never
occurs for sufficiently large fuel). -/
inductive EngineError where
  | duplicateSpec (code : Nat)
  | duplicateTaskOutput (code : Nat)
  | codeOrdering (maxInput minOutput : Nat)
  | unknownSpec (code : Nat)
  | duplicateWorkflow (name : String)
  | invalidTarget (request : String)
  | unknownTask (code : Nat)
  | missingSpec (code : Nat)
  | noInputFile (code : Nat)
  | outOfFuel
deriving DecidableEq, Repr

/-- Which `DataFile` class `_to_data_file` instantiates
(`DataFile`, `CSVInputDataFile` or `CSVOutputDataFile`). -/
inductive DataFileKind where
  | plain
  | csvInput
  | csvOutput
deriving DecidableEq, Repr

/-- `DataFileSpec` / `CSVDataFileSpec` of `elkhound/file.py`; `isCsv`
models which of the two classes the spec is an instance of. -/
structure FileSpec where
  code : Nat
  name : String
  extension : String
  flags : Nat := 0
  isCsv : Bool := false
deriving DecidableEq, Repr

/-- `DataFileSpec.is_binary`: `bool(self.flags & Flag.BINARY)` with
`Flag.BINARY = 1`. -/
def FileSpec.isBinary (s : FileSpec) : Bool :=
  Nat.land s.flags 1 != 0

/-- The `DataFile` object handed to a task: resolved path, open mode and
spec, plus the class that was instantiated. -/
structure DataFile where
  path : String
  mode : String
  spec : FileSpec
  kind : DataFileKind
deriving DecidableEq, Repr

/-- A `Task` subclass instance: declared input and output codes and the
`run` method.  `id` models Python object identity (two distinct instances
are distinct even if they declare identical codes). -/
structure Task where
  id : Nat
  inputCodes : List Nat
  outputCodes : List Nat
  run : List (Nat × DataFile) → List (Nat × DataFile) → Ctx → Ctx

/-- The mutable state of an `Engine`: the three registries and the run
timestamp fixed at construction. -/
structure Engine where
  specs : List (Nat × FileSpec) := []
  tasksByTarget : List (Nat × Task) := []
  workflows : List (String × List Nat) := []
  timestamp : Nat

/-- A workspace directory: its path and the file names `os.listdir`
returns for it. -/
structure Workspace where
  path : String
  files : List String

/-- Python `max` over a list (total; only applied to nonempty lists,
matching the guard in `register_task` and `_to_data_file`). -/
def maxOf : List Nat → Nat
  | [] => 0
  | x :: xs => xs.foldl Nat.max x

/-- Python `min` over a list (total; only applied to nonempty lists). -/
def minOf : List Nat → Nat
  | [] => 0
  | x :: xs => xs.foldl Nat.min x

/-- `Engine.register_file_spec`: reject a duplicate code, else store the
spec.  The second component is the engine state after the call (unchanged
when the error is raised). -/
def Engine.registerFileSpec (e : Engine) (spec : FileSpec) :
    Option EngineError × Engine :=
  if (List.lookup spec.code e.specs).isSome then
    (some (.duplicateSpec spec.code), e)
  else
    (none, { e with specs := e.specs ++ [(spec.code, spec)] })

/-- `Engine.register_task`: the four validation passes in source order
(duplicate output code, input/output code ordering, unknown input spec,
unknown output spec), then the task is stored under each of its output
codes.  All checks precede the mutation. -/
def Engine.registerTask (e : Engine) (t : Task) :
    Option EngineError × Engine :=
  match t.outputCodes.find? (fun c => (List.lookup c e.tasksByTarget).isSome) with
  | some c => (some (.duplicateTaskOutput c), e)
  | none =>
    if t.inputCodes ≠ [] ∧ t.outputCodes ≠ [] ∧ minOf t.outputCodes ≤ maxOf t.inputCodes then
      (some (.codeOrdering (maxOf t.inputCodes) (minOf t.outputCodes)), e)
    else
      match t.inputCodes.find? (fun c => (List.lookup c e.specs).isNone) with
      | some c => (some (.unknownSpec c), e)
      | none =>
        match t.outputCodes.find? (fun c => (List.lookup c e.specs).isNone) with
        | some c => (some (.unknownSpec c), e)
        | none =>
          (none, { e with tasksByTarget :=
            e.tasksByTarget ++ t.outputCodes.map (fun c => (c, t)) })

/-- `Engine.register_workflow`: reject a duplicate name, else store the
code list verbatim. -/
def Engine.registerWorkflow (e : Engine) (name : String) (tasks : List Nat) :
    Option EngineError × Engine :=
  if (List.lookup name e.workflows).isSome then
    (some (.duplicateWorkflow name), e)
  else
    (none, { e with workflows := e.workflows ++ [(name, tasks)] })

/-- Python `int(token)` on a code token: the decimal value of a nonempty
all-digit string, none otherwise (codes are nonnegative decimals in this
system). -/
def parseNat? (s : String) : Option Nat :=
  if s.toList ≠ [] ∧ s.toList.all Char.isDigit then
    some (s.toList.foldl (fun a c => 10 * a + (c.toNat - 48)) 0)
  else none

/-- Step 1 of `Engine.expand_targets`: the `for target in targets:` loop
that splices registered workflow names and parses every other request as
an integer code (`int(target)` raising on a non-numeric token). -/
def Engine.seedTargets (e : Engine) : List String → Except EngineError (List Nat)
  | [] => .ok []
  | t :: ts =>
    match List.lookup t e.workflows with
    | some codes => (e.seedTargets ts).map (fun rest => codes ++ rest)
    | none =>
      match parseNat? t with
      | some n => (e.seedTargets ts).map (fun rest => n :: rest)
      | none => .error (.invalidTarget t)

/-- Fuel bound for the `_add_dependencies` loop: every iteration pops one
element, and the only pushes are codes never seen before, all drawn from
the input lists of registered tasks. -/
def Engine.depsFuel (e : Engine) (tasks : List Nat) : Nat :=
  tasks.length + (e.tasksByTarget.map (fun p => p.2.inputCodes.length)).sum + 1

/-- The `while queue:` loop of `Engine._add_dependencies`.  The deque is
represented back-to-front: `queue.pop()` (the right end) takes the head of
the representation and `queue.appendleft` appends on the right.  Each
popped target is appended to `extended` unconditionally, then its
producing task is fetched (raising `unknownTask` when absent) and each of
its input codes not already in `extended` or the queue is pushed. -/
def Engine.addDepsAux (e : Engine) : Nat → List Nat → List Nat → Except EngineError (List Nat)
  | _, [], extended => .ok (List.insertionSort (fun a b => a ≤ b) extended)
  | 0, _ :: _, _ => .error .outOfFuel
  | fuel + 1, target :: rest, extended =>
    let ext := extended ++ [target]
    match List.lookup target e.tasksByTarget with
    | none => .error (.unknownTask target)
    | some task =>
      e.addDepsAux fuel
        (task.inputCodes.foldl (fun q dep => if dep ∈ ext ∨ dep ∈ q then q else q ++ [dep]) rest)
        ext

/-- `Engine._add_dependencies`: run the closure loop from the seed list
(as a deque, so reversed in our representation) and an empty result
accumulator, returning the accumulator sorted ascending. -/
def Engine.addDependencies (e : Engine) (tasks : List Nat) : Except EngineError (List Nat) :=
  e.addDepsAux (e.depsFuel tasks) tasks.reverse []

/-- `Engine.expand_targets`: expand workflow references, then add upstream
targets when `dependencies` is true; otherwise return the seed list
untouched. -/
def Engine.expandTargets (e : Engine) (targets : List String) (dependencies : Bool) :
    Except EngineError (List Nat) :=
  match e.seedTargets targets with
  | .error err => .error err
  | .ok seed => if dependencies then e.addDependencies seed else .ok seed

/-- Zero-padding of `'{:04}'.format(code)`. -/
def pad4 (n : Nat) : String :=
  let s := toString n
  if s.length < 4 then String.mk (List.replicate (4 - s.length) '0') ++ s else s

/-- The resolved file name `'d{:04}_{}_v{}.{}'` for a given version. -/
def dataFileName (spec : FileSpec) (version : Nat) : String :=
  "d" ++ pad4 spec.code ++ "_" ++ spec.name ++ "_v" ++ toString version ++ "." ++ spec.extension

/-- The literal part of the READ pattern before the version group. -/
def readStem (spec : FileSpec) : String :=
  "d" ++ pad4 spec.code ++ "_" ++ spec.name ++ "_v"

/-- Whether the first list is a leading segment of the second. -/
def leadsChars : List Char → List Char → Bool
  | [], _ => true
  | _ :: _, [] => false
  | p :: ps, c :: cs => p == c && leadsChars ps cs

/-- Numeric value of a run of decimal digit characters
(`int(m.group(1))`). -/
def digitsVal (ds : List Char) : Nat :=
  ds.foldl (fun a c => 10 * a + (c.toNat - 48)) 0

/-- What may follow the version group in the READ pattern: one character
other than a newline (the unescaped `.` of the regex) followed by the
extension, with an unanchored tail. -/
def tailAccepts (ext : List Char) : List Char → Bool
  | [] => false
  | c :: cs => c != '\n' && leadsChars ext cs

/-- Greedy, backtracking choice of the `(\d+)` group: try the longest
digit run first and shrink until the rest of the pattern matches. -/
def greedyVersion (rest ext : List Char) : Nat → Option Nat
  | 0 => none
  | k + 1 =>
    if tailAccepts ext (rest.drop (k + 1)) then some (digitsVal (rest.take (k + 1)))
    else greedyVersion rest ext k

/-- `re.match` of the READ pattern against one directory entry, returning
the captured version when the entry matches. -/
def matchVersion (spec : FileSpec) (fileName : String) : Option Nat :=
  let p := (readStem spec).toList
  let fn := fileName.toList
  if leadsChars p fn then
    let rest := fn.drop p.length
    greedyVersion rest spec.extension.toList (rest.takeWhile Char.isDigit).length
  else none

/-- All versions found in the workspace listing for a spec (the `versions`
set of `_to_data_file`; duplicates are harmless for membership and max). -/
def readVersions (spec : FileSpec) (files : List String) : List Nat :=
  files.filterMap (matchVersion spec)

/-- Read/write intent (the `rw` argument of `_to_data_file`). -/
inductive RW where
  | r
  | w
deriving DecidableEq, Repr

/-- The open mode string `rw + tb`. -/
def modeFor (rw : RW) (spec : FileSpec) : String :=
  (match rw with | .r => "r" | .w => "w") ++ (if spec.isBinary then "b" else "t")

/-- Which `DataFile` class is instantiated for the given spec and
intent. -/
def kindFor (rw : RW) (spec : FileSpec) : DataFileKind :=
  if spec.isCsv then (match rw with | .r => .csvInput | .w => .csvOutput) else .plain

/-- `os.path.join` for a directory and a plain file name. -/
def joinPath (dir fileName : String) : String :=
  dir ++ "/" ++ fileName

/-- `Engine._to_data_file`: look up the spec (`KeyError` when absent); for
WRITE stamp the run timestamp without looking at the workspace; for READ
scan the listing, fail when nothing matches, prefer a version equal to the
run timestamp, else take the numerically greatest version. -/
def Engine.toDataFile (e : Engine) (ws : Workspace) (rw : RW) (code : Nat) :
    Except EngineError DataFile :=
  match List.lookup code e.specs with
  | none => .error (.missingSpec code)
  | some spec =>
    match rw with
    | .w =>
      .ok ⟨joinPath ws.path (dataFileName spec e.timestamp), modeFor .w spec, spec, kindFor .w spec⟩
    | .r =>
      let versions := readVersions spec ws.files
      if versions = [] then .error (.noInputFile code)
      else
        let version := if e.timestamp ∈ versions then e.timestamp else maxOf versions
        .ok ⟨joinPath ws.path (dataFileName spec version), modeFor .r spec, spec, kindFor .r spec⟩

/-- State local to one `Engine.run` call: the `completed_tasks` set (task
ids), the threaded context dictionary, and the order in which task `run`
methods were invoked (one id per invocation). -/
structure RunState where
  completed : List Nat
  ctx : Ctx
  trace : List Nat
deriving DecidableEq, Repr

/-- The input- or output-file dictionary built code by code inside
`Engine.run` (each code resolved through `_to_data_file`). -/
def Engine.collectFiles (e : Engine) (ws : Workspace) (rw : RW) :
    List Nat → Except EngineError (List (Nat × DataFile))
  | [] => .ok []
  | c :: cs =>
    match e.toDataFile ws rw c with
    | .error err => .error err
    | .ok f =>
      match e.collectFiles ws rw cs with
      | .error err => .error err
      | .ok rest => .ok ((c, f) :: rest)

/-- The `for target in targets:` loop of `Engine.run`: fetch the producing
task (`unknownTask` when absent), skip it when already completed, read the
target's spec for the log line (`KeyError` when absent), resolve input and
output files, invoke the task and record it.  On an error the state
reached so far is returned alongside the error (the context object keeps
the mutations already applied). -/
def Engine.runAux (e : Engine) (ws : Workspace) :
    List Nat → RunState → Option EngineError × RunState
  | [], st => (none, st)
  | target :: rest, st =>
    match List.lookup target e.tasksByTarget with
    | none => (some (.unknownTask target), st)
    | some task =>
      if task.id ∈ st.completed then e.runAux ws rest st
      else
        match List.lookup target e.specs with
        | none => (some (.missingSpec target), st)
        | some _ =>
          match e.collectFiles ws .r task.inputCodes with
          | .error err => (some err, st)
          | .ok inputFiles =>
            match e.collectFiles ws .w task.outputCodes with
            | .error err => (some err, st)
            | .ok outputFiles =>
              e.runAux ws rest
                ⟨st.completed ++ [task.id], task.run inputFiles outputFiles st.ctx,
                  st.trace ++ [task.id]⟩

/-- The `if not context: context = dict()` line of `Engine.run`: the
context the loop threads — a fresh empty dictionary when the caller passed
`None` or an empty (falsy) map, otherwise the caller's own map. -/
def initialCtx : Option Ctx → Ctx
  | none => []
  | some m => if m.isEmpty then [] else m

/-- Whether `Engine.run` keeps using the caller's map object (so that the
caller's map aliases the threaded context): exactly when the caller passed
a non-empty map. -/
def usesCallerMap : Option Ctx → Bool
  | none => false
  | some m => !m.isEmpty

/-- `Engine.run` on a target list, returning the error (if any) and the
run state reached (final context and execution trace). -/
def Engine.run (e : Engine) (ws : Workspace) (targets : List Nat) (ctxArg : Option Ctx) :
    Option EngineError × RunState :=
  e.runAux ws targets ⟨[], initialCtx ctxArg, []⟩

/-- The contents of a caller-supplied map after `Engine.run` returns: the
map is mutated in place only when the engine kept using it; when the
engine substituted a fresh dictionary, the caller's map is untouched. -/
def Engine.callerObserved (e : Engine) (ws : Workspace) (targets : List Nat) (m : Ctx) : Ctx :=
  if usesCallerMap (some m) then (e.run ws targets (some m)).2.ctx else m

/-- Whether the registered producing task of code `c` is the task with
id `i`. -/
def producesId (e : Engine) (c i : Nat) : Bool :=
  match List.lookup c e.tasksByTarget with
  | some t => t.id == i
  | none => false

/-- Whether some requested target's producing task is the task with the
given id (used to state the once-per-task execution property). -/
def producedBy (e : Engine) (targets : List Nat) (i : Nat) : Bool :=
  targets.any fun c => producesId e c i

/-- Spec-shaped expansion of a single request (§4.2 step 1 of the design
document): a registered workflow name maps to its stored list, any other
request to the singleton of its parsed code. -/
def Engine.expandRequest (e : Engine) (r : String) : Except EngineError (List Nat) :=
  match List.lookup r e.workflows with
  | some codes => .ok codes
  | none =>
    match parseNat? r with
    | some n => .ok [n]
    | none => .error (.invalidTarget r)

/-- Spec-shaped seed expansion (§4.2 steps 1 and 3 of the design
document): expand each request on its own and concatenate the pieces in
request order, with no deduplication. -/
def Engine.seedSpec (e : Engine) : List String → Except EngineError (List Nat)
  | [] => .ok []
  | r :: rs =>
    match e.expandRequest r with
    | .error err => .error err
    | .ok xs =>
      match e.seedSpec rs with
      | .error err => .error err
      | .ok rest => .ok (xs ++ rest)

/-! ### Concrete fixtures used by witnesses and counterexamples -/

/-- A plain spec for a given code, as in the engine's own test fixtures. -/
def specAt (c : Nat) : FileSpec := ⟨c, "foo", "dat", 0, false⟩

/-- Spec registry holding `specAt c` for each listed code. -/
def specsFor (codes : List Nat) : List (Nat × FileSpec) :=
  codes.map fun c => (c, specAt c)

/-- A task that records nothing (identity `run`). -/
def quietTask (i : Nat) (ins outs : List Nat) : Task :=
  ⟨i, ins, outs, fun _ _ c => c⟩

/-- Timestamp-stamped engine and workspace for the write-resolution
witness. -/
def engineW : Engine :=
  { specs := [(3000, specAt 3000)], tasksByTarget := [], workflows := [],
    timestamp := 20170808000000 }

/-- Workspace already holding an (ignored) file for code 3000. -/
def wsW : Workspace := ⟨"ws", ["d3000_foo_v20140101000000.dat"]⟩

/-- Engine already owning output code 4000 (through `quietTask 0`). -/
def engineA : Engine :=
  { specs := specsFor [4000, 5000], tasksByTarget := [(4000, quietTask 0 [] [4000])],
    workflows := [], timestamp := 0 }

/-- A task only some of whose output codes (4000, not 5000) collide. -/
def taskPartial : Task := quietTask 1 [] [4000, 5000]

/-- An engine whose single task prepends a context entry. -/
def engineC : Engine :=
  { specs := specsFor [7], tasksByTarget := [(7, ⟨9, [], [7], fun _ _ c => ("ran", 1) :: c⟩)],
    workflows := [], timestamp := 0 }

/-- An empty workspace (the task reads nothing). -/
def wsEmpty : Workspace := ⟨"ws", []⟩

/-- Fresh engine with specs 1000 and 2000 and no tasks. -/
def engineB : Engine :=
  { specs := specsFor [1000, 2000], tasksByTarget := [], workflows := [], timestamp := 0 }

/-- A well-formed task from 1000 to 2000. -/
def taskReg : Task := quietTask 3 [1000] [2000]

/-- A task whose output 4000 collides with `engineA` and whose codes also
violate the ordering invariant (input 5000 ≥ output 4000). -/
def taskClash : Task := quietTask 2 [5000] [4000]

/-- A task from 2000 down to 1000, violating the ordering invariant. -/
def taskBad : Task := quietTask 4 [2000] [1000]

/-- Engine stamped with the run timestamp of the worked example. -/
def engineR : Engine :=
  { specs := [(3000, specAt 3000)], tasksByTarget := [], workflows := [],
    timestamp := 20170808000000 }

/-- Workspace holding code 3000 at three versions, none equal to the run
timestamp. -/
def wsLatest : Workspace :=
  ⟨"ws", ["d3000_foo_v20170807000000.dat", "d3000_foo_v20180101000000.dat",
    "d3000_foo_v20140101000000.dat"]⟩

/-- The same workspace plus a file stamped exactly with the run
timestamp. -/
def wsStamped : Workspace :=
  ⟨"ws", wsLatest.files ++ ["d3000_foo_v20170808000000.dat"]⟩

/-- Engine with a single task from input 1 to output 2; code 1 has a spec
but no producing task (a pure external input leaf). -/
def engineL : Engine :=
  { specs := specsFor [1, 2], tasksByTarget := [(2, quietTask 0 [1] [2])],
    workflows := [], timestamp := 0 }

/-- Engine with the diamond graph of the repository's own tests:
`A : [] → 1000`, `B : [1000] → 2000`, `D : [1000, 2000] → 4000`. -/
def engineG : Engine :=
  { specs := specsFor [1000, 2000, 4000],
    tasksByTarget := [(1000, quietTask 10 [] [1000]), (2000, quietTask 11 [1000] [2000]),
      (4000, quietTask 12 [1000, 2000] [4000])],
    workflows := [], timestamp := 0 }

/-- Engine with a single source task producing code 5 and a workflow. -/
def engineS : Engine :=
  { specs := specsFor [5], tasksByTarget := [(5, quietTask 5 [] [5])],
    workflows := [("wf", [7, 8])], timestamp := 0 }

/-- Engine whose task produces the two targets 7 and 8 at once and tags
the context. -/
def engineT : Engine :=
  { specs := specsFor [7, 8],
    tasksByTarget := [(7, ⟨9, [], [7, 8], fun _ _ c => ("ran", 1) :: c⟩),
      (8, ⟨9, [], [7, 8], fun _ _ c => ("ran", 1) :: c⟩)],
    workflows := [], timestamp := 0 }

end Elkhound

namespace Elkhound

/-! ### Helper lemmas -/

theorem lookup_append_of_none {α β : Type} [BEq α] (k : α) (l m : List (α × β))
    (h : List.lookup k l = none) : List.lookup k (l ++ m) = List.lookup k m := by
  induction l with
  | nil => rfl
  | cons p l ih =>
    rw [List.cons_append]
    cases p with
    | mk a b =>
      cases hk : k == a with
      | true =>
        have h1 : List.lookup k ((a, b) :: l) = some b := by simp [List.lookup, hk]
        rw [h1] at h; cases h
      | false =>
        have h1 : List.lookup k ((a, b) :: l) = List.lookup k l := by simp [List.lookup, hk]
        have h2 : List.lookup k ((a, b) :: (l ++ m)) = List.lookup k (l ++ m) := by
          simp [List.lookup, hk]
        rw [h1] at h
        rw [h2]
        exact ih h

theorem lookup_map_self {α : Type} [BEq α] [LawfulBEq α] (t : Task) (k : α) (l : List α)
    (h : k ∈ l) : List.lookup k (l.map fun c => (c, t)) = some t := by
  induction l with
  | nil => cases h
  | cons c cs ih =>
    rw [List.map_cons]
    unfold List.lookup
    cases hk : k == c with
    | true => rfl
    | false =>
      rcases List.mem_cons.mp h with h1 | h1
      · rw [h1] at hk; simp at hk
      · exact ih h1

theorem le_foldl_max (xs : List Nat) (x : Nat) : x ≤ xs.foldl Nat.max x := by
  induction xs generalizing x with
  | nil => exact Nat.le_refl x
  | cons y ys ih => exact Nat.le_trans (Nat.le_max_left x y) (ih (Nat.max x y))

theorem mem_le_foldl_max (xs : List Nat) (x y : Nat) (h : y ∈ xs) :
    y ≤ xs.foldl Nat.max x := by
  induction xs generalizing x with
  | nil => cases h
  | cons z zs ih =>
    rcases List.mem_cons.mp h with h1 | h1
    · rw [h1, List.foldl_cons]
      exact Nat.le_trans (Nat.le_max_right x z) (le_foldl_max zs (Nat.max x z))
    · rw [List.foldl_cons]
      exact ih (Nat.max x z) h1

theorem foldl_max_choice (xs : List Nat) (x : Nat) :
    xs.foldl Nat.max x = x ∨ xs.foldl Nat.max x ∈ xs := by
  induction xs generalizing x with
  | nil => exact Or.inl rfl
  | cons y ys ih =>
    rw [List.foldl_cons]
    rcases ih (Nat.max x y) with h | h
    · rcases Nat.le_total x y with hxy | hxy
      · have hm : x.max y = y := Nat.max_eq_right hxy
        exact Or.inr (by rw [h, hm]; exact List.mem_cons_self y ys)
      · have hm : x.max y = x := Nat.max_eq_left hxy
        exact Or.inl (by rw [h, hm])
    · exact Or.inr (List.mem_cons_of_mem y h)

theorem maxOf_mem (l : List Nat) (h : l ≠ []) : maxOf l ∈ l := by
  cases l with
  | nil => exact absurd rfl h
  | cons x xs =>
    show xs.foldl Nat.max x ∈ x :: xs
    rcases foldl_max_choice xs x with h1 | h1
    · rw [h1]; exact List.mem_cons_self x xs
    · exact List.mem_cons_of_mem x h1

theorem le_maxOf (l : List Nat) (y : Nat) (h : y ∈ l) : y ≤ maxOf l := by
  cases l with
  | nil => cases h
  | cons x xs =>
    show y ≤ xs.foldl Nat.max x
    rcases List.mem_cons.mp h with h1 | h1
    · rw [h1]; exact le_foldl_max xs x
    · exact mem_le_foldl_max xs x y h1

/-! ### C7 -/

/-- C7: with WRITE intent the resolver returns the path stamped with the
run timestamp, as a pure function of workspace path, spec and timestamp;
it never consults the workspace listing and never fails because of
existing files. -/
theorem writeResolutionPure (e : Engine) (ws : Workspace) (code : Nat) (spec : FileSpec)
    (h : List.lookup code e.specs = some spec) :
    e.toDataFile ws .w code =
      .ok ⟨joinPath ws.path (dataFileName spec e.timestamp), modeFor .w spec, spec,
        kindFor .w spec⟩ ∧
    ∀ files files' : List String,
      e.toDataFile ⟨ws.path, files⟩ .w code = e.toDataFile ⟨ws.path, files'⟩ .w code := by
  constructor
  · unfold Engine.toDataFile
    rw [h]
  · intro files files'
    unfold Engine.toDataFile
    rw [h]

theorem writeResolutionPure_witness :
    engineW.toDataFile wsW .w 3000 =
      .ok ⟨joinPath wsW.path (dataFileName (specAt 3000) engineW.timestamp),
        modeFor .w (specAt 3000), specAt 3000, kindFor .w (specAt 3000)⟩ :=
  (writeResolutionPure engineW wsW 3000 (specAt 3000) rfl).1

/-! ### C9 -/

theorem registerTask_state_or_ok (e : Engine) (t : Task) :
    (e.registerTask t).2 = e ∨ (e.registerTask t).1 = none := by
  unfold Engine.registerTask
  split
  · exact Or.inl rfl
  · split
    · exact Or.inl rfl
    · split
      · exact Or.inl rfl
      · split
        · exact Or.inl rfl
        · exact Or.inr rfl

/-- C9: registerTask validates everything before mutating the registry:
whenever it reports an error, the whole engine state — in particular the
task-by-output-code map — is exactly what it was before the call. -/
theorem registerTaskAtomic (e : Engine) (t : Task) (err : EngineError)
    (h : (e.registerTask t).1 = some err) :
    (e.registerTask t).2.tasksByTarget = e.tasksByTarget ∧ (e.registerTask t).2 = e := by
  rcases registerTask_state_or_ok e t with h2 | h2
  · exact ⟨by rw [h2], h2⟩
  · rw [h2] at h; cases h

theorem registerTaskAtomic_witness :
    (engineA.registerTask taskPartial).2.tasksByTarget = engineA.tasksByTarget ∧
    (engineA.registerTask taskPartial).2 = engineA :=
  registerTaskAtomic engineA taskPartial (.duplicateTaskOutput 4000) rfl

/-! ### C10 -/

/-- C10: `run` substitutes a fresh empty dictionary when the caller passes
`None` or an empty map and threads the substitute; hence a caller passing
an empty map never observes task mutations, while a caller passing a
non-empty map has its own map threaded and observes the final context. -/
theorem contextSubstitution (e : Engine) (ws : Workspace) (targets : List Nat) :
    (e.run ws targets none = e.runAux ws targets ⟨[], [], []⟩) ∧
    (e.run ws targets (some []) = e.runAux ws targets ⟨[], [], []⟩) ∧
    (e.callerObserved ws targets [] = []) ∧
    (∀ m : Ctx, m ≠ [] →
      e.run ws targets (some m) = e.runAux ws targets ⟨[], m, []⟩ ∧
      e.callerObserved ws targets m = (e.run ws targets (some m)).2.ctx) := by
  refine ⟨rfl, rfl, rfl, ?_⟩
  intro m hm
  have hne : m.isEmpty = false := by
    cases m with
    | nil => exact absurd rfl hm
    | cons p l => rfl
  have hinit : initialCtx (some m) = m := by
    show (if m.isEmpty = true then ([] : Ctx) else m) = m
    rw [hne]
    simp
  have huse : usesCallerMap (some m) = true := by
    show (!m.isEmpty) = true
    rw [hne]
    rfl
  constructor
  · unfold Engine.run
    rw [hinit]
  · unfold Engine.callerObserved
    rw [huse]
    simp

theorem contextSubstitution_witness :
    engineC.run wsEmpty [7] (some [("seed", 2)]) =
      engineC.runAux wsEmpty [7] ⟨[], [("seed", 2)], []⟩ ∧
    engineC.callerObserved wsEmpty [7] [("seed", 2)] =
      (engineC.run wsEmpty [7] (some [("seed", 2)])).2.ctx :=
  (contextSubstitution engineC wsEmpty [7]).2.2.2 [("seed", 2)] (by decide)

end Elkhound

namespace Elkhound

/-! ### C8 and C3: registration contracts -/

theorem isSome_false_eq_none {α : Type} (o : Option α) (h : o.isSome = false) : o = none := by
  cases o with
  | none => rfl
  | some v => cases h

theorem registerTask_ok_no_collision (e : Engine) (t : Task)
    (h : (e.registerTask t).1 = none) :
    ∀ c ∈ t.outputCodes, List.lookup c e.tasksByTarget = none := by
  intro c hc
  unfold Engine.registerTask at h
  cases hf : t.outputCodes.find? (fun c => (List.lookup c e.tasksByTarget).isSome) with
  | some d => rw [hf] at h; simp at h
  | none =>
    have h1 := List.find?_eq_none.mp hf c hc
    exact Option.not_isSome_iff_eq_none.mp h1

theorem registerTask_ok_map (e : Engine) (t : Task)
    (h : (e.registerTask t).1 = none) :
    (e.registerTask t).2.tasksByTarget =
      e.tasksByTarget ++ t.outputCodes.map (fun c => (c, t)) := by
  unfold Engine.registerTask at h ⊢
  cases hf1 : t.outputCodes.find? (fun c => (List.lookup c e.tasksByTarget).isSome) with
  | some d => rw [hf1] at h; simp at h
  | none =>
    rw [hf1] at h
    dsimp only at h ⊢
    by_cases hord : t.inputCodes ≠ [] ∧ t.outputCodes ≠ [] ∧ minOf t.outputCodes ≤ maxOf t.inputCodes
    · rw [if_pos hord] at h; simp at h
    · rw [if_neg hord] at h ⊢
      cases hf2 : t.inputCodes.find? (fun c => (List.lookup c e.specs).isNone) with
      | some d => rw [hf2] at h; simp at h
      | none =>
        rw [hf2] at h
        dsimp only at h ⊢
        cases hf3 : t.outputCodes.find? (fun c => (List.lookup c e.specs).isNone) with
        | some d => rw [hf3] at h; simp at h
        | none => rfl

/-- C8: registerFileSpec fails exactly when the code is taken,
registerTask fails whenever an output code is taken, registerWorkflow
fails exactly when the name is taken — and each successful call stores its
argument (the task reachable under every one of its output codes, the
workflow list verbatim). -/
theorem registrationContracts :
    (∀ (e : Engine) (spec : FileSpec),
      ((e.registerFileSpec spec).1.isSome ↔ (List.lookup spec.code e.specs).isSome)) ∧
    (∀ (e : Engine) (spec : FileSpec), (e.registerFileSpec spec).1 = none →
      List.lookup spec.code (e.registerFileSpec spec).2.specs = some spec) ∧
    (∀ (e : Engine) (t : Task) (c : Nat), c ∈ t.outputCodes →
      (List.lookup c e.tasksByTarget).isSome → (e.registerTask t).1.isSome) ∧
    (∀ (e : Engine) (t : Task), (e.registerTask t).1 = none →
      ∀ c ∈ t.outputCodes, List.lookup c (e.registerTask t).2.tasksByTarget = some t) ∧
    (∀ (e : Engine) (name : String) (codes : List Nat),
      ((e.registerWorkflow name codes).1.isSome ↔ (List.lookup name e.workflows).isSome)) ∧
    (∀ (e : Engine) (name : String) (codes : List Nat),
      (e.registerWorkflow name codes).1 = none →
      List.lookup name (e.registerWorkflow name codes).2.workflows = some codes) := by
  refine ⟨?_, ?_, ?_, ?_, ?_, ?_⟩
  · intro e spec
    unfold Engine.registerFileSpec
    cases hls : (List.lookup spec.code e.specs).isSome <;> simp [hls]
  · intro e spec h
    unfold Engine.registerFileSpec at h ⊢
    cases hls : (List.lookup spec.code e.specs).isSome with
    | true => rw [hls] at h; simp at h
    | false =>
      show List.lookup spec.code (e.specs ++ [(spec.code, spec)]) = some spec
      rw [lookup_append_of_none _ _ _ (isSome_false_eq_none _ hls)]
      simp [List.lookup]
  · intro e t c hc hsome
    cases h1 : (e.registerTask t).1 with
    | some err => rfl
    | none =>
      have h2 := registerTask_ok_no_collision e t h1 c hc
      rw [h2] at hsome
      cases hsome
  · intro e t h c hc
    rw [registerTask_ok_map e t h]
    rw [lookup_append_of_none _ _ _ (registerTask_ok_no_collision e t h c hc)]
    exact lookup_map_self t c t.outputCodes hc
  · intro e name codes
    unfold Engine.registerWorkflow
    cases hls : (List.lookup name e.workflows).isSome <;> simp [hls]
  · intro e name codes h
    unfold Engine.registerWorkflow at h ⊢
    cases hls : (List.lookup name e.workflows).isSome with
    | true => rw [hls] at h; simp at h
    | false =>
      show List.lookup name (e.workflows ++ [(name, codes)]) = some codes
      rw [lookup_append_of_none _ _ _ (isSome_false_eq_none _ hls)]
      simp [List.lookup]

theorem registrationContracts_witness :
    List.lookup 2000 (engineB.registerTask taskReg).2.tasksByTarget = some taskReg :=
  registrationContracts.2.2.2.1 engineB taskReg rfl 2000 (by decide)

/-- C3 counterexample: a task declaring inputs and outputs with
`max(inputs) ≥ min(outputs)` can fail with the duplicate-output error, not
the code-ordering error, because the collision check runs first. -/
theorem orderingErrorPreempted :
    taskClash.inputCodes ≠ [] ∧ taskClash.outputCodes ≠ [] ∧
    minOf taskClash.outputCodes ≤ maxOf taskClash.inputCodes ∧
    (engineA.registerTask taskClash).1 = some (.duplicateTaskOutput 4000) ∧
    ∀ a b : Nat, (engineA.registerTask taskClash).1 ≠ some (.codeOrdering a b) := by
  refine ⟨by decide, by decide, by decide, rfl, ?_⟩
  intro a b hab
  rw [show (engineA.registerTask taskClash).1 = some (.duplicateTaskOutput 4000) from rfl] at hab
  simp at hab

/-- C3 as amended: when a task declares inputs and outputs, none of its
output codes is already claimed (the duplicate-output check runs first)
and `max(inputs) ≥ min(outputs)`, registration fails with the
code-ordering error; for tasks declaring only inputs or only outputs the
ordering check is skipped entirely (no call ever fails with it). -/
theorem codeOrderingEnforced :
    (∀ (e : Engine) (t : Task), t.inputCodes ≠ [] → t.outputCodes ≠ [] →
      (∀ c ∈ t.outputCodes, List.lookup c e.tasksByTarget = none) →
      minOf t.outputCodes ≤ maxOf t.inputCodes →
      (e.registerTask t).1 = some (.codeOrdering (maxOf t.inputCodes) (minOf t.outputCodes))) ∧
    (∀ (e : Engine) (t : Task), t.inputCodes = [] ∨ t.outputCodes = [] →
      ∀ a b : Nat, (e.registerTask t).1 ≠ some (.codeOrdering a b)) := by
  constructor
  · intro e t h1 h2 h3 h4
    unfold Engine.registerTask
    have hf : t.outputCodes.find? (fun c => (List.lookup c e.tasksByTarget).isSome) = none := by
      apply List.find?_eq_none.mpr
      intro c hc
      rw [h3 c hc]
      simp
    rw [hf]
    rw [if_pos ⟨h1, h2, h4⟩]
  · intro e t hor a b hab
    unfold Engine.registerTask at hab
    cases hf : t.outputCodes.find? (fun c => (List.lookup c e.tasksByTarget).isSome) with
    | some d => rw [hf] at hab; simp at hab
    | none =>
      rw [hf] at hab
      have hcond : ¬(t.inputCodes ≠ [] ∧ t.outputCodes ≠ [] ∧
          minOf t.outputCodes ≤ maxOf t.inputCodes) := by
        rcases hor with h | h
        · intro hcon; exact hcon.1 h
        · intro hcon; exact hcon.2.1 h
      rw [if_neg hcond] at hab
      cases hf2 : t.inputCodes.find? (fun c => (List.lookup c e.specs).isNone) with
      | some d => rw [hf2] at hab; simp at hab
      | none =>
        rw [hf2] at hab
        cases hf3 : t.outputCodes.find? (fun c => (List.lookup c e.specs).isNone) with
        | some d => rw [hf3] at hab; simp at hab
        | none => rw [hf3] at hab; simp at hab

theorem codeOrderingEnforced_witness :
    (engineB.registerTask taskBad).1 = some (.codeOrdering 2000 1000) :=
  codeOrderingEnforced.1 engineB taskBad (by decide) (by decide)
    (fun c _ => rfl) (by decide)

end Elkhound

namespace Elkhound

/-! ### C1: READ resolution -/

/-- C1: resolving a READ for a code whose spec is registered: when no
workspace file matches the filename pattern the call fails with the
missing-input error; when some match carries exactly the run timestamp
that version is chosen, regardless of greater versions; otherwise the
numerically greatest matching version is chosen. -/
theorem readResolution (e : Engine) (ws : Workspace) (code : Nat) (spec : FileSpec)
    (h : List.lookup code e.specs = some spec) :
    (readVersions spec ws.files = [] →
      e.toDataFile ws .r code = .error (.noInputFile code)) ∧
    (e.timestamp ∈ readVersions spec ws.files →
      e.toDataFile ws .r code =
        .ok ⟨joinPath ws.path (dataFileName spec e.timestamp), modeFor .r spec, spec,
          kindFor .r spec⟩) ∧
    (readVersions spec ws.files ≠ [] → e.timestamp ∉ readVersions spec ws.files →
      ∃ v, v ∈ readVersions spec ws.files ∧ (∀ u ∈ readVersions spec ws.files, u ≤ v) ∧
        e.toDataFile ws .r code =
          .ok ⟨joinPath ws.path (dataFileName spec v), modeFor .r spec, spec,
            kindFor .r spec⟩) := by
  unfold Engine.toDataFile
  rw [h]
  dsimp only
  refine ⟨?_, ?_, ?_⟩
  · intro hempty
    rw [if_pos hempty]
  · intro hmem
    have hne : ¬(readVersions spec ws.files = []) := by
      intro hempty; rw [hempty] at hmem; cases hmem
    rw [if_neg hne, if_pos hmem]
  · intro hne hnomem
    refine ⟨maxOf (readVersions spec ws.files), maxOf_mem _ hne,
      fun u hu => le_maxOf _ u hu, ?_⟩
    rw [if_neg hne, if_neg hnomem]

theorem readResolution_witness :
    engineR.toDataFile wsLatest .r 3000 =
      .ok ⟨"ws/d3000_foo_v20180101000000.dat", "rt", specAt 3000, .plain⟩ ∧
    engineR.toDataFile wsStamped .r 3000 =
      .ok ⟨"ws/d3000_foo_v20170808000000.dat", "rt", specAt 3000, .plain⟩ ∧
    engineR.toDataFile ⟨"ws", []⟩ .r 3000 = .error (.noInputFile 3000) :=
  ⟨rfl, rfl,
    (readResolution engineR ⟨"ws", []⟩ 3000 (specAt 3000) rfl).1 rfl⟩

end Elkhound

namespace Elkhound

/-! ### C5: seed expansion without dependencies -/

theorem expandTargets_false (e : Engine) (reqs : List String) :
    e.expandTargets reqs false = e.seedTargets reqs := by
  unfold Engine.expandTargets
  cases h : e.seedTargets reqs with
  | error err => rfl
  | ok seed => rfl

theorem seedTargets_eq_seedSpec (e : Engine) (reqs : List String) :
    e.seedTargets reqs = e.seedSpec reqs := by
  induction reqs with
  | nil => rfl
  | cons t ts ih =>
    unfold Engine.seedTargets Engine.seedSpec Engine.expandRequest
    cases hw : List.lookup t e.workflows with
    | some codes =>
      dsimp only
      rw [ih]
      cases hs : e.seedSpec ts with
      | error err => rfl
      | ok rest => rfl
    | none =>
      cases hn : parseNat? t with
      | some n =>
        dsimp only
        rw [ih]
        cases hs : e.seedSpec ts with
        | error err => rfl
        | ok rest => rfl
      | none => rfl

theorem seedSpec_append (e : Engine) (as bs : List String) (la lb : List Nat)
    (ha : e.seedSpec as = .ok la) (hb : e.seedSpec bs = .ok lb) :
    e.seedSpec (as ++ bs) = .ok (la ++ lb) := by
  induction as generalizing la with
  | nil =>
    unfold Engine.seedSpec at ha
    cases ha
    exact hb
  | cons t ts ih =>
    rw [List.cons_append]
    unfold Engine.seedSpec at ha ⊢
    cases hr : e.expandRequest t with
    | error err => rw [hr] at ha; cases ha
    | ok xs =>
      rw [hr] at ha
      dsimp only at ha
      cases hs : e.seedSpec ts with
      | error err => rw [hs] at ha; cases ha
      | ok rest =>
        rw [hs] at ha
        dsimp only at ha
        cases ha
        dsimp only
        rw [ih rest hs]
        rw [List.append_assoc]

/-- C5: with includeDependencies=false, expandTargets returns exactly the
seed list: each request matching a registered workflow name is replaced in
place by that workflow's stored code list in stored order, every other
request is parsed as an integer code, concatenation order across requests
is preserved, and no deduplication or sorting is applied (append
distributivity: a repeated request yields a repeated code). -/
theorem seedExpansion :
    (∀ (e : Engine) (reqs : List String),
      e.expandTargets reqs false = e.seedSpec reqs) ∧
    (∀ (e : Engine) (as bs : List String) (la lb : List Nat),
      e.expandTargets as false = .ok la → e.expandTargets bs false = .ok lb →
      e.expandTargets (as ++ bs) false = .ok (la ++ lb)) := by
  constructor
  · intro e reqs
    rw [expandTargets_false, seedTargets_eq_seedSpec]
  · intro e as bs la lb ha hb
    rw [expandTargets_false, seedTargets_eq_seedSpec] at ha hb ⊢
    exact seedSpec_append e as bs la lb ha hb

theorem seedExpansion_witness :
    engineS.expandTargets ["wf", "9", "9"] false = .ok [7, 8, 9, 9] :=
  seedExpansion.2 engineS ["wf", "9"] ["9"] [7, 8, 9] [9] rfl rfl

end Elkhound

namespace Elkhound

/-! ### C2: task lookups during dependency closure -/

theorem addDepsAux_sound (e : Engine) :
    ∀ (fuel : Nat) (queue extended res : List Nat),
      (∀ c ∈ extended, (List.lookup c e.tasksByTarget).isSome) →
      e.addDepsAux fuel queue extended = .ok res →
      ∀ c ∈ res, (List.lookup c e.tasksByTarget).isSome := by
  intro fuel
  induction fuel with
  | zero =>
    intro queue extended res hext h c hc
    cases queue with
    | nil =>
      unfold Engine.addDepsAux at h
      cases h
      exact hext c ((List.perm_insertionSort _ extended).mem_iff.mp hc)
    | cons q qs =>
      unfold Engine.addDepsAux at h
      cases h
  | succ n ih =>
    intro queue extended res hext h c hc
    cases queue with
    | nil =>
      unfold Engine.addDepsAux at h
      cases h
      exact hext c ((List.perm_insertionSort _ extended).mem_iff.mp hc)
    | cons target rest =>
      unfold Engine.addDepsAux at h
      cases hl : List.lookup target e.tasksByTarget with
      | none => rw [hl] at h; cases h
      | some task =>
        rw [hl] at h
        dsimp only at h
        refine ih _ _ res ?_ h c hc
        intro d hd
        rcases List.mem_append.mp hd with hd | hd
        · exact hext d hd
        · rw [List.mem_singleton.mp hd, hl]; rfl

/-- C2 counterexample: in `engineL` code 1 appears solely as a dependency
of the sole target 2 (which has a registered task), yet closure fails with
an unknown-task error for 1 — the producing task is fetched for
dependencies too. -/
theorem dependencyLookupFails :
    engineL.expandTargets ["2"] true = .error (.unknownTask 1) ∧
    (List.lookup 2 engineL.tasksByTarget).isSome = true ∧
    List.lookup 1 engineL.tasksByTarget = none ∧
    engineL.seedTargets ["2"] = .ok [2] :=
  ⟨rfl, rfl, rfl, rfl⟩

/-- C2 as amended: during closure the producing task is fetched for every
code popped off the work queue — discovered dependencies as well as
targets — so expansion succeeds only if every code in the result has a
registered task; a dependency leaf without one aborts closure with the
unknown-task error. -/
theorem closureFetchesAll :
    ∀ (e : Engine) (reqs : List String) (res : List Nat),
      e.expandTargets reqs true = .ok res →
      ∀ c ∈ res, (List.lookup c e.tasksByTarget).isSome := by
  intro e reqs res h c hc
  unfold Engine.expandTargets at h
  cases hseed : e.seedTargets reqs with
  | error err => rw [hseed] at h; cases h
  | ok seed =>
    rw [hseed] at h
    dsimp only at h
    rw [if_pos rfl] at h
    unfold Engine.addDependencies at h
    exact addDepsAux_sound e _ _ _ _ (fun d hd => absurd hd (List.not_mem_nil d)) h c hc

theorem closureFetchesAll_witness :
    (List.lookup 4000 engineG.tasksByTarget).isSome :=
  closureFetchesAll engineG ["4000"] [1000, 2000, 4000] rfl 4000 (by decide)

/-! ### C6: seed duplicates in the two expansion modes -/

/-- C6 counterexample: passing the same code twice yields the duplicate in
the sorted (includeDependencies=true) output as well, not only in the
unsorted one — the closure's accumulator is a plain list, not a set. -/
theorem seedDuplicateSurvivesSort :
    engineS.expandTargets ["5", "5"] false = .ok [5, 5] ∧
    engineS.expandTargets ["5", "5"] true = .ok [5, 5] ∧
    (engineS.expandTargets ["5", "5"] true).map (fun l => l.count 5) = .ok 2 :=
  ⟨rfl, rfl, rfl⟩

theorem count_le_pushDeps :
    ∀ (deps ext q : List Nat) (c : Nat),
      q.count c ≤
        (deps.foldl (fun q2 dep => if dep ∈ ext ∨ dep ∈ q2 then q2 else q2 ++ [dep]) q).count c := by
  intro deps
  induction deps with
  | nil => intro ext q c; exact Nat.le_refl _
  | cons d ds ih =>
    intro ext q c
    rw [List.foldl_cons]
    refine Nat.le_trans ?_ (ih ext _ c)
    by_cases hd : d ∈ ext ∨ d ∈ q
    · rw [if_pos hd]
    · rw [if_neg hd]
      rw [List.count_append]
      exact Nat.le_add_right _ _

theorem addDepsAux_count (e : Engine) :
    ∀ (fuel : Nat) (queue extended res : List Nat),
      e.addDepsAux fuel queue extended = .ok res →
      ∀ c, queue.count c + extended.count c ≤ res.count c := by
  intro fuel
  induction fuel with
  | zero =>
    intro queue extended res h c
    cases queue with
    | nil =>
      unfold Engine.addDepsAux at h
      cases h
      have hp := (List.perm_insertionSort (fun a b => a ≤ b) extended).count_eq c
      rw [hp]
      simp
    | cons q qs =>
      unfold Engine.addDepsAux at h
      cases h
  | succ n ih =>
    intro queue extended res h c
    cases queue with
    | nil =>
      unfold Engine.addDepsAux at h
      cases h
      have hp := (List.perm_insertionSort (fun a b => a ≤ b) extended).count_eq c
      rw [hp]
      simp
    | cons target rest =>
      unfold Engine.addDepsAux at h
      cases hl : List.lookup target e.tasksByTarget with
      | none => rw [hl] at h; cases h
      | some task =>
        rw [hl] at h
        dsimp only at h
        have h2 := ih _ _ res h c
        have h3 := count_le_pushDeps task.inputCodes (extended ++ [target]) rest c
        have e1 : List.count c (target :: rest) = List.count c [target] + List.count c rest := by
          rw [show target :: rest = [target] ++ rest from rfl, List.count_append]
        have e2 : List.count c (extended ++ [target]) =
            List.count c extended + List.count c [target] := List.count_append c extended [target]
        omega

/-- C6 as amended: a code occurring twice among the seed requests yields a
duplicate entry in the unsorted (includeDependencies=false) output and
ALSO in the sorted (includeDependencies=true) output: the closure appends
every popped queue element to its result list unconditionally and only
deduplicates newly discovered dependencies, so sorting preserves the
seed's multiplicities. -/
theorem closureKeepsSeedMultiplicity :
    ∀ (e : Engine) (reqs : List String) (seed res : List Nat) (c : Nat),
      e.seedTargets reqs = .ok seed →
      e.expandTargets reqs true = .ok res →
      e.expandTargets reqs false = .ok seed ∧ seed.count c ≤ res.count c := by
  intro e reqs seed res c hseed h
  constructor
  · rw [expandTargets_false]; exact hseed
  · unfold Engine.expandTargets at h
    rw [hseed] at h
    dsimp only at h
    rw [if_pos rfl] at h
    unfold Engine.addDependencies at h
    have h2 := addDepsAux_count e _ _ _ _ h c
    have hrev := (List.reverse_perm seed).count_eq c
    simp only [List.count_nil] at h2
    omega

theorem closureKeepsSeedMultiplicity_witness :
    engineS.expandTargets ["5", "5"] false = .ok [5, 5] ∧
    List.count 5 [5, 5] ≤ List.count 5 [5, 5] :=
  closureKeepsSeedMultiplicity engineS ["5", "5"] [5, 5] [5, 5] 5 rfl rfl

end Elkhound

namespace Elkhound

/-! ### C4: once-per-task execution and context threading -/

theorem runAux_trace (e : Engine) (ws : Workspace) :
    ∀ (targets : List Nat) (st : RunState),
      st.trace.Nodup → (∀ i, i ∈ st.completed ↔ i ∈ st.trace) →
      (e.runAux ws targets st).1 = none →
      (e.runAux ws targets st).2.trace.Nodup ∧
      (∀ i, i ∈ (e.runAux ws targets st).2.trace ↔
        i ∈ st.trace ∨ producedBy e targets i = true) := by
  intro targets
  induction targets with
  | nil =>
    intro st h1 h2 h3
    refine ⟨h1, fun i => ?_⟩
    constructor
    · exact fun h => Or.inl h
    · rintro (h | h)
      · exact h
      · simp [producedBy] at h
  | cons target rest ih =>
    intro st h1 h2 h3
    unfold Engine.runAux at h3 ⊢
    cases hl : List.lookup target e.tasksByTarget with
    | none => rw [hl] at h3; simp at h3
    | some task =>
      rw [hl] at h3
      dsimp only at h3 ⊢
      by_cases hc : task.id ∈ st.completed
      · rw [if_pos hc] at h3 ⊢
        have hres := ih st h1 h2 h3
        refine ⟨hres.1, fun i => ?_⟩
        rw [hres.2 i]
        have hp1 : producedBy e (target :: rest) i =
            (producesId e target i || producedBy e rest i) := rfl
        have hp2 : producesId e target i = (task.id == i) := by
          unfold producesId; rw [hl]
        rw [hp1, hp2, Bool.or_eq_true, beq_iff_eq]
        constructor
        · rintro (h | h)
          · exact Or.inl h
          · exact Or.inr (Or.inr h)
        · rintro (h | h | h)
          · exact Or.inl h
          · exact Or.inl (h ▸ (h2 task.id).mp hc)
          · exact Or.inr h
      · rw [if_neg hc] at h3 ⊢
        cases hspec : List.lookup target e.specs with
        | none => rw [hspec] at h3; simp at h3
        | some s =>
          rw [hspec] at h3
          dsimp only at h3 ⊢
          cases hin : e.collectFiles ws .r task.inputCodes with
          | error err => rw [hin] at h3; simp at h3
          | ok inputFiles =>
            rw [hin] at h3
            dsimp only at h3 ⊢
            cases hout : e.collectFiles ws .w task.outputCodes with
            | error err => rw [hout] at h3; simp at h3
            | ok outputFiles =>
              rw [hout] at h3
              dsimp only at h3 ⊢
              have hid : task.id ∉ st.trace := fun hmem => hc ((h2 task.id).mpr hmem)
              have h1n : (st.trace ++ [task.id]).Nodup := by
                rw [List.nodup_append]
                refine ⟨h1, List.nodup_singleton _, ?_⟩
                intro a ha hb
                exact hid (List.mem_singleton.mp hb ▸ ha)
              have h2n : ∀ i, i ∈ st.completed ++ [task.id] ↔ i ∈ st.trace ++ [task.id] := by
                intro j
                rw [List.mem_append, List.mem_append, h2 j]
              have hres := ih _ h1n h2n h3
              refine ⟨hres.1, fun i => ?_⟩
              rw [hres.2 i]
              have hp1 : producedBy e (target :: rest) i =
                  (producesId e target i || producedBy e rest i) := rfl
              have hp2 : producesId e target i = (task.id == i) := by
                unfold producesId; rw [hl]
              rw [hp1, hp2, Bool.or_eq_true, beq_iff_eq, List.mem_append, List.mem_singleton]
              constructor
              · rintro ((h | h) | h)
                · exact Or.inl h
                · exact Or.inr (Or.inl h.symm)
                · exact Or.inr (Or.inr h)
              · rintro (h | h | h)
                · exact Or.inl (Or.inl h)
                · exact Or.inl (Or.inr h.symm)
                · exact Or.inr h

theorem runAux_cons (e : Engine) (ws : Workspace) (target : Nat) (rest : List Nat)
    (st : RunState) :
    e.runAux ws (target :: rest) st =
      match List.lookup target e.tasksByTarget with
      | none => (some (.unknownTask target), st)
      | some task =>
        if task.id ∈ st.completed then e.runAux ws rest st
        else
          match List.lookup target e.specs with
          | none => (some (.missingSpec target), st)
          | some _ =>
            match e.collectFiles ws .r task.inputCodes with
            | .error err => (some err, st)
            | .ok inputFiles =>
              match e.collectFiles ws .w task.outputCodes with
              | .error err => (some err, st)
              | .ok outputFiles =>
                e.runAux ws rest
                  ⟨st.completed ++ [task.id], task.run inputFiles outputFiles st.ctx,
                    st.trace ++ [task.id]⟩ := rfl

theorem runAux_append (e : Engine) (ws : Workspace) :
    ∀ (xs ys : List Nat) (st : RunState),
      (e.runAux ws xs st).1 = none →
      e.runAux ws (xs ++ ys) st = e.runAux ws ys (e.runAux ws xs st).2 := by
  intro xs
  induction xs with
  | nil => intro ys st h; rfl
  | cons target rest ih =>
    intro ys st h
    rw [List.cons_append]
    rw [runAux_cons e ws target rest st] at h
    rw [runAux_cons e ws target (rest ++ ys) st, runAux_cons e ws target rest st]
    cases hl : List.lookup target e.tasksByTarget with
    | none => rw [hl] at h; simp at h
    | some task =>
      rw [hl] at h
      dsimp only at h ⊢
      by_cases hc : task.id ∈ st.completed
      · simp only [if_pos hc] at h ⊢
        exact ih ys st h
      · simp only [if_neg hc] at h ⊢
        cases hspec : List.lookup target e.specs with
        | none => rw [hspec] at h; simp at h
        | some s =>
          rw [hspec] at h
          dsimp only at h ⊢
          cases hin : e.collectFiles ws .r task.inputCodes with
          | error err => rw [hin] at h; simp at h
          | ok inputFiles =>
            rw [hin] at h
            dsimp only at h ⊢
            cases hout : e.collectFiles ws .w task.outputCodes with
            | error err => rw [hout] at h; simp at h
            | ok outputFiles =>
              rw [hout] at h
              dsimp only at h ⊢
              exact ih ys _ h

/-- C4: in a successful run every task instance executes exactly once —
the execution trace lists a task id exactly once when the task produces
some requested target and never otherwise, however many targets it
produces — and the orchestrator threads one context through the whole
target list: running `xs ++ ys` equals running `ys` from the exact state
(context included) in which running `xs` ended, so mutations made by a
task's single execution are visible to every later task. -/
theorem taskRunsOnce :
    (∀ (e : Engine) (ws : Workspace) (targets : List Nat) (ctxArg : Option Ctx),
      (e.run ws targets ctxArg).1 = none →
      ∀ i : Nat, (e.run ws targets ctxArg).2.trace.count i =
        if producedBy e targets i then 1 else 0) ∧
    (∀ (e : Engine) (ws : Workspace) (xs ys : List Nat) (st : RunState),
      (e.runAux ws xs st).1 = none →
      e.runAux ws (xs ++ ys) st = e.runAux ws ys (e.runAux ws xs st).2) := by
  constructor
  · intro e ws targets ctxArg h i
    unfold Engine.run at h ⊢
    have hres := runAux_trace e ws targets ⟨[], initialCtx ctxArg, []⟩
      List.nodup_nil (fun j => Iff.rfl) h
    have hmem := hres.2 i
    simp only [List.not_mem_nil, false_or] at hmem
    by_cases hp : producedBy e targets i = true
    · rw [if_pos hp]
      exact List.count_eq_one_of_mem hres.1 (hmem.mpr hp)
    · rw [if_neg hp]
      exact List.count_eq_zero_of_not_mem (fun hmem2 => hp (hmem.mp hmem2))
  · intro e ws
    exact runAux_append e ws

theorem taskRunsOnce_witness :
    (engineT.run wsEmpty [7, 8] none).2.trace.count 9 =
      if producedBy engineT [7, 8] 9 then 1 else 0 :=
  taskRunsOnce.1 engineT wsEmpty [7, 8] none rfl 9

end Elkhound
